import Mathlib

/-
  Verification development for the codebase-onboarding pipeline.

  Strings from the TypeScript source are embedded as `List Char`; every
  JavaScript string operation used by the code (`toLowerCase`, `includes`,
  `split`, regular-expression matching against the three fixed URL patterns,
  `match(/\x7b[\s\S]*\x7d/)`) is given an explicit executable definition below.
  Machine numbers are embedded as `Nat` (all counts in the source are
  non-negative); the one signed comparison (`current_step >= steps.length - 1`)
  is taken over `Int` to keep JavaScript's `0 - 1 = -1` behaviour.
-/

namespace Onboarder

/-- Character list of a string literal. -/
def chars (s : String) : List Char := s.data

/-- JavaScript `String.prototype.toLowerCase` (ASCII-relevant part). -/
def lowerS (s : List Char) : List Char := s.map Char.toLower

/-- Does the second list start with the first list? -/
def startsWithL : List Char → List Char → Bool
  | [], _ => true
  | _ :: _, [] => false
  | p :: ps, c :: cs => p == c && startsWithL ps cs

/-- JavaScript `String.prototype.includes`: `hasSub pat s` holds iff `pat`
occurs as a contiguous substring of `s`. -/
def hasSub : List Char → List Char → Bool
  | pat, [] => pat.isEmpty
  | pat, c :: cs => startsWithL pat (c :: cs) || hasSub pat cs

/-- Split a list at the first occurrence of `c`: returns the part before and
the part after that occurrence. -/
def splitFirst (c : Char) : List Char → Option (List Char × List Char)
  | [] => none
  | a :: rest =>
    if a = c then some ([], rest)
    else
      match splitFirst c rest with
      | some (pre, post) => some (a :: pre, post)
      | none => none

/-- Split a list at the last occurrence of `c`. -/
def splitLast (c : Char) (s : List Char) : Option (List Char × List Char) :=
  match splitFirst c s.reverse with
  | none => none
  | some (rpost, rpre) => some (rpre.reverse, rpost.reverse)

/-- JavaScript `name.split('.').pop()`: the segment after the last dot
(the whole string when there is no dot). -/
def lastDotSegment (s : List Char) : List Char :=
  s.foldl (fun acc c => if c = '.' then [] else acc ++ [c]) []

/-- JavaScript `message.split('\n')[0]`. -/
def firstLine (s : List Char) : List Char := s.takeWhile (fun c => c ≠ '\n')

/-- Strip a literal pattern from the front of a list (`none` when the list
does not start with the pattern). -/
def peelLit : List Char → List Char → Option (List Char)
  | [], s => some s
  | _ :: _, [] => none
  | p :: ps, c :: cs => if p = c then peelLit ps cs else none

/- ───────────────────── GitHubClient.parseRepositoryUrl ───────────────────── -/

/-- `RepoParseResult` from `src/github/types.ts` / `client.ts`. -/
structure RepoParseResult where
  owner : List Char
  repo : List Char
  isValid : Bool
  error : Option (List Char)
deriving DecidableEq, Repr

/-- The characters of the literal `.git` suffix. -/
def dotGit : List Char := chars ".git"

/-- `true` when the list contains neither `'.'` nor `'/'` — the character
class `[^\/\.]` of the repo-name capture group. -/
def noDotSlash (s : List Char) : Bool := s.all (fun c => c ≠ '.' && c ≠ '/')

/-- Match the tail of a repository URL against `([^\/\.]+)(\.git)?$`:
returns the captured name (the optional `.git` suffix stripped). -/
def matchRepoName (tail : List Char) : Option (List Char) :=
  if 4 ≤ tail.length ∧ tail.drop (tail.length - 4) = dotGit then
    if tail.take (tail.length - 4) ≠ [] ∧ noDotSlash (tail.take (tail.length - 4)) then
      some (tail.take (tail.length - 4))
    else none
  else if tail ≠ [] ∧ noDotSlash tail then some tail else none

/-- Match `([^\/]+)\/([^\/\.]+)(\.git)?$`: an owner segment (no slash), a
slash, and the repo name with optional `.git` suffix. -/
def matchOwnerRepo (rest : List Char) : Option (List Char × List Char) :=
  match splitFirst '/' rest with
  | none => none
  | some (owner, tail) =>
    if owner = [] then none
    else
      match matchRepoName tail with
      | none => none
      | some name => some (owner, name)

/-- One anchored pattern of `parseRepositoryUrl`: a fixed literal head
followed by `([^\/]+)\/([^\/\.]+)(\.git)?$`. -/
def tryPattern (head url : List Char) : Option (List Char × List Char) :=
  match peelLit head url with
  | some rest => matchOwnerRepo rest
  | none => none

def httpsHead : List Char := chars "https://github.com/"
def httpHead : List Char := chars "http://github.com/"
def sshHead : List Char := chars "git@github.com:"
def bareHead : List Char := chars "github.com/"

/-- `GitHubClient.parseRepositoryUrl` (`src/github/client.ts:11-50`): tries
the three regular expressions in order (`https?://github.com/…`,
`git@github.com:…`, `github.com/…`); on the first match returns the captured
owner and repo with `isValid = true`, otherwise an invalid result with the
fixed error message.  The `catch` branch of the source is dead code (string
matching does not throw), so the function is total by construction. -/
def parseRepositoryUrl (url : List Char) : RepoParseResult :=
  match tryPattern httpsHead url with
  | some (o, r) => ⟨o, r, true, none⟩
  | none =>
    match tryPattern httpHead url with
    | some (o, r) => ⟨o, r, true, none⟩
    | none =>
      match tryPattern sshHead url with
      | some (o, r) => ⟨o, r, true, none⟩
      | none =>
        match tryPattern bareHead url with
        | some (o, r) => ⟨o, r, true, none⟩
        | none => ⟨[], [], false, some (chars "Invalid GitHub URL format")⟩

/- ───────────────────────── CommitAnalyzer (analyzer.ts) ───────────────────────── -/

/-- Per-file change record (`GitHubFile` from `src/github/types.ts`, fields
used by the analyzer and the ingestion pipeline). -/
structure GitHubFile where
  filename : List Char
  additions : Nat
  deletions : Nat
  status : List Char
  patch : Option (List Char)
deriving DecidableEq, Repr

/-- A fetched commit (`GitHubCommit`), flattened: `message`, `author`, `date`
stand for `commit.commit.message`, `commit.commit.author.name`,
`commit.commit.author.date`.  `files` is the optional per-file stats array. -/
structure GitHubCommit where
  sha : List Char
  message : List Char
  author : List Char
  date : List Char
  files : Option (List GitHubFile)
deriving DecidableEq, Repr

inductive Category where
  | feature | fix | refactor | test | docs | other
deriving DecidableEq, Repr

/-- `CommitAnalysis` from `src/github/analyzer.ts`. -/
structure CommitAnalysis where
  sha : List Char
  isLearningWorthy : Bool
  category : Category
  reason : List Char
  fileTypes : List (List Char)
  linesChanged : Nat
deriving DecidableEq, Repr

/-- Insert into the back unless already present — `Array.from(new Set(...))`
keeps first-insertion order. -/
def insertUniq (x : List Char) (l : List (List Char)) : List (List Char) :=
  if l.contains x then l else l ++ [x]

/-- `CommitAnalyzer.getFileTypes`: lowercased last dot segment of each
filename, empty extensions skipped, deduplicated in insertion order. -/
def getFileTypes (files : List GitHubFile) : List (List Char) :=
  files.foldl
    (fun acc f =>
      let ext := lowerS (lastDotSegment f.filename)
      if ext = [] then acc else insertUniq ext acc)
    []

/-- `CommitAnalyzer.getTotalLinesChanged`: sum of additions + deletions. -/
def getTotalLinesChanged (files : List GitHubFile) : Nat :=
  files.foldl (fun total f => total + f.additions + f.deletions) 0

def configExtensions : List (List Char) :=
  [chars "json", chars "yml", chars "yaml", chars "toml", chars "ini", chars "config"]

def configNames : List (List Char) :=
  [chars "package.json", chars "package-lock.json", chars "yarn.lock",
   chars ".gitignore", chars "dockerfile"]

/-- `CommitAnalyzer.hasOnlyConfigFiles` (vacuously true on an empty list,
exactly like `Array.prototype.every`). -/
def hasOnlyConfigFiles (files : List GitHubFile) : Bool :=
  files.all fun f =>
    let ext := lowerS (lastDotSegment f.filename)
    let name := lowerS f.filename
    configExtensions.contains ext || configNames.any (fun cn => hasSub cn name)

/-- `CommitAnalyzer.hasMainlyTestFiles`.  The source compares
`testFiles.length > files.length * 0.7`; over the machine integers in play
this is exactly the rational comparison `10·t > 7·n`. -/
def hasMainlyTestFiles (files : List GitHubFile) : Bool :=
  let t := (files.filter fun f =>
    hasSub (chars "test") f.filename || hasSub (chars "spec") f.filename ||
    hasSub (chars "__tests__") f.filename).length
  10 * t > 7 * files.length

def docExtensions : List (List Char) := [chars "md", chars "txt", chars "rst"]

/-- `CommitAnalyzer.hasMainlyDocFiles`. -/
def hasMainlyDocFiles (files : List GitHubFile) : Bool :=
  let d := (files.filter fun f =>
    docExtensions.contains (lowerS (lastDotSegment f.filename)) ||
    hasSub (chars "readme") (lowerS f.filename)).length
  10 * d > 7 * files.length

/-- Does `/v?\d+\.\d+\.\d+/` match starting exactly here?  (The leading `v`
is optional, so a match exists at a position iff the digit pattern matches at
that position or one further on; scanning every position below makes the
optional `v` irrelevant.) -/
def versionAt (s : List Char) : Bool :=
  let d1 := s.takeWhile Char.isDigit
  let r1 := s.dropWhile Char.isDigit
  !d1.isEmpty &&
    match r1 with
    | '.' :: r2 =>
      let d2 := r2.takeWhile Char.isDigit
      let r3 := r2.dropWhile Char.isDigit
      !d2.isEmpty &&
        match r3 with
        | '.' :: r4 => !(r4.takeWhile Char.isDigit).isEmpty
        | _ => false
    | _ => false

/-- `/v?\d+\.\d+\.\d+/.test(message)`. -/
def hasVersionNum : List Char → Bool
  | [] => false
  | s@(_ :: rest) => versionAt s || hasVersionNum rest

/-- `CommitAnalyzer.isVersionBump` (receives the already-lowercased message). -/
def isVersionBump (message : List Char) : Bool :=
  hasVersionNum message &&
    (hasSub (chars "bump") message || hasSub (chars "release") message ||
     hasSub (chars "version") message)

/-- `CommitAnalyzer.categorizeCommit` (`analyzer.ts:114-140`). -/
def categorizeCommit (message : List Char) (files : List GitHubFile) : Category :=
  if hasSub (chars "add") message || hasSub (chars "feat") message ||
     hasSub (chars "implement") message then .feature
  else if hasSub (chars "fix") message || hasSub (chars "bug") message ||
     hasSub (chars "resolve") message then .fix
  else if hasSub (chars "refactor") message || hasSub (chars "improve") message ||
     hasSub (chars "clean") message then .refactor
  else if hasSub (chars "test") message || hasMainlyTestFiles files then .test
  else if hasSub (chars "doc") message || hasSub (chars "readme") message ||
     hasMainlyDocFiles files then .docs
  else .other

/-- `CommitAnalyzer.analyzeCommit` (`analyzer.ts:15-85`): size gates, keyword
categorization, per-category worthiness, then the config-only and
version-bump overrides. -/
def analyzeCommit (c : GitHubCommit) : CommitAnalysis :=
  let message := lowerS c.message
  let files := c.files.getD []
  let base : CommitAnalysis :=
    { sha := c.sha, isLearningWorthy := false, category := .other, reason := [],
      fileTypes := getFileTypes files, linesChanged := getTotalLinesChanged files }
  if files.length > 15 then
    { base with reason := chars "Too many files changed (bulk operation)" }
  else if base.linesChanged < 5 then
    { base with reason := chars "Very small change" }
  else if base.linesChanged > 500 then
    { base with reason := chars "Too many lines changed (likely auto-generated)" }
  else
    let cat := categorizeCommit message files
    let a :=
      match cat with
      | .feature =>
        { base with category := cat, isLearningWorthy := true,
                    reason := chars "Adds new functionality" }
      | .fix =>
        if base.linesChanged ≥ 10 ∧ files.length ≤ 5 then
          { base with category := cat, isLearningWorthy := true,
                      reason := chars "Substantial bug fix" }
        else { base with category := cat, reason := chars "Small bug fix" }
      | .refactor =>
        if files.length ≤ 8 ∧ base.linesChanged ≤ 200 then
          { base with category := cat, isLearningWorthy := true,
                      reason := chars "Code improvement/refactor" }
        else { base with category := cat, reason := chars "Large refactor (too complex)" }
      | .test =>
        { base with category := cat, isLearningWorthy := true,
                    reason := chars "Adds or improves tests" }
      | _ =>
        { base with category := cat, reason := chars "Not a clear feature/improvement" }
    let a :=
      if hasOnlyConfigFiles files then
        { a with isLearningWorthy := false, reason := chars "Only configuration changes" }
      else a
    if isVersionBump message then
      { a with isLearningWorthy := false, reason := chars "Version bump" }
    else a

/- ───────────────── GitHubService.ingestRepository (github/index.ts) ───────────────── -/

/-- Repository row (`storage/database.ts`; the DB-generated `created_at`
timestamp is abstracted away). -/
structure Repository where
  id : List Char
  github_url : List Char
  name : List Char
deriving DecidableEq, Repr

/-- Commit row (`storage/database.ts`, minus the DB timestamp). -/
structure Commit where
  id : List Char
  repo_id : List Char
  sha : List Char
  message : List Char
  author : List Char
  date : List Char
deriving DecidableEq, Repr

/-- `CommitAnalyzer.convertToDbCommit`. -/
def convertToDbCommit (g : GitHubCommit) (repoId : List Char) : Commit :=
  { id := repoId ++ ':' :: g.sha, repo_id := repoId, sha := g.sha,
    message := g.message, author := g.author, date := g.date }

inductive StatusKind where
  | pending | analyzing | completed | error
deriving DecidableEq, Repr

/-- `AnalysisStatus` from `storage/kv.ts` (timestamps abstracted away). -/
structure AnalysisStatus where
  repo_id : List Char
  status : StatusKind
  error_message : Option (List Char)
deriving DecidableEq, Repr

/-- The durable state an ingestion run touches: repository and commit rows in
the relational store, diff blobs in the object store (keyed repoId × sha),
and the analysis-status entries in the key-value store. -/
structure Store where
  repos : List Repository
  commits : List Commit
  diffs : List (List Char × List Char)
  statuses : List (List Char × AnalysisStatus)
deriving DecidableEq, Repr

/-- `kv.put` on the `analysis:` keyspace: overwrite the entry for the key. -/
def upsertStatus : List (List Char × AnalysisStatus) → List Char → AnalysisStatus →
    List (List Char × AnalysisStatus)
  | [], rid, s => [(rid, s)]
  | (k, v) :: rest, rid, s =>
    if k = rid then (rid, s) :: rest else (k, v) :: upsertStatus rest rid s

def setStatus (st : Store) (rid : List Char) (s : AnalysisStatus) : Store :=
  { st with statuses := upsertStatus st.statuses rid s }

/-- `kv.get` on the `analysis:` keyspace. -/
def lookupStatus : List (List Char × AnalysisStatus) → List Char → Option AnalysisStatus
  | [], _ => none
  | (k, v) :: rest, rid => if k = rid then some v else lookupStatus rest rid

def getStatus (st : Store) (rid : List Char) : Option AnalysisStatus :=
  lookupStatus st.statuses rid

/-- Outcomes of the external calls an ingestion run makes, in program order.
`none` / `.ok` means the call succeeds; a payload under `.error` / `some` is
the thrown error's message.  Per-commit outcomes are indexed by the commit's
position in the fetched batch. -/
structure IngestEnv where
  repoInfoFullName : Except (List Char) (List Char)
  createRepoErr : Option (List Char)
  learningCommits : Except (List Char) (List GitHubCommit)
  createCommitErr : Nat → Option (List Char)
  storeDiffErr : Nat → Option (List Char)

/-- `RepoIngestionResult` from `src/github/index.ts` (`repository` starts out
`null`, hence the `Option`). -/
structure RepoIngestionResult where
  repository : Option Repository
  commits : List Commit
  learningCommits : Nat
  totalCommits : Nat
  errors : List (List Char)
deriving DecidableEq, Repr

/-- The error string pushed by the per-commit `catch`. -/
def commitErrMsg (sha m : List Char) : List Char :=
  chars "Failed to store commit " ++ sha ++ chars ": " ++ m

/-- The per-commit loop of `ingestRepository` (`index.ts:102-130`): for the
commit at batch index `i`, try `createCommit` (on success the stored row is
pushed onto `result.commits` immediately), then — only if the analysis is
learning-worthy and the `files` field is present — try `storeCommitDiff`
(bumping `result.learningCommits` on success).  Any throw is caught, turned
into an `errors` entry, and the loop continues.  Returns the updated store,
the stored rows, the learning-commit count, and the error strings. -/
def ingestLoop (env : IngestEnv) (repoId : List Char) :
    Nat → List GitHubCommit → Store →
    Store × List Commit × Nat × List (List Char)
  | _, [], st => (st, [], 0, [])
  | i, g :: rest, st =>
    match env.createCommitErr i with
    | some m =>
      let r := ingestLoop env repoId (i + 1) rest st
      (r.1, r.2.1, r.2.2.1, commitErrMsg g.sha m :: r.2.2.2)
    | none =>
      let dbc := convertToDbCommit g repoId
      let st1 := { st with commits := st.commits ++ [dbc] }
      if (analyzeCommit g).isLearningWorthy ∧ g.files.isSome then
        match env.storeDiffErr i with
        | some m =>
          let r := ingestLoop env repoId (i + 1) rest st1
          (r.1, dbc :: r.2.1, r.2.2.1, commitErrMsg g.sha m :: r.2.2.2)
        | none =>
          let st2 := { st1 with diffs := st1.diffs ++ [(repoId, g.sha)] }
          let r := ingestLoop env repoId (i + 1) rest st2
          (r.1, dbc :: r.2.1, r.2.2.1 + 1, r.2.2.2)
      else
        let r := ingestLoop env repoId (i + 1) rest st1
        (r.1, dbc :: r.2.1, r.2.2.1, r.2.2.2)

/-- `GitHubService.ingestRepository` (`src/github/index.ts:40-153`): parse the
URL, fail fast on the existing-by-URL check, fetch repo info, write the
repository row, set status `analyzing`, fetch the learning commits, run the
per-commit loop, set status `completed`.  The surrounding `catch` sets status
`error` (with the error's message) before rethrowing — but only when
`result.repository` has already been assigned. -/
def ingestRepository (env : IngestEnv) (url : List Char) (st : Store) :
    Except (List Char) RepoIngestionResult × Store :=
  let parsed := parseRepositoryUrl url
  if !parsed.isValid then
    (.error (parsed.error.getD (chars "Invalid repository URL")), st)
  else if st.repos.any (fun r => r.github_url = url) then
    (.error (chars "Repository already exists in database"), st)
  else
    match env.repoInfoFullName with
    | .error e => (.error e, st)
    | .ok fullName =>
      match env.createRepoErr with
      | some m => (.error m, st)
      | none =>
        let repoId := parsed.owner ++ '/' :: parsed.repo
        let repository : Repository := ⟨repoId, url, fullName⟩
        let st1 := { st with repos := st.repos ++ [repository] }
        let st2 := setStatus st1 repoId ⟨repoId, .analyzing, none⟩
        match env.learningCommits with
        | .error e =>
          (.error e, setStatus st2 repoId ⟨repoId, .error, some e⟩)
        | .ok gcs =>
          let r := ingestLoop env repoId 0 gcs st2
          let st4 := setStatus r.1 repoId ⟨repoId, .completed, none⟩
          (.ok ⟨some repository, r.2.1, r.2.2.1, gcs.length, r.2.2.2⟩, st4)

/- ─────────────── LearnerSession transitions (tutorial/index.ts) ─────────────── -/

/-- Learner-session row as the step transitions see it; the
`completed_at` timestamp is abstracted to a completion flag (the source only
ever tests it for null-ness and overwrites it with `CURRENT_TIMESTAMP`). -/
structure LearnerSession where
  current_step : Nat
  completed : Bool
deriving DecidableEq, Repr

/-- `startSession` creates the row with `current_step: 0, completed_at: null`. -/
def startSession : LearnerSession := ⟨0, false⟩

/-- `completeSession`: `UPDATE learner_sessions SET completed_at = CURRENT_TIMESTAMP`. -/
def completeSession (s : LearnerSession) : LearnerSession := { s with completed := true }

/-- `TutorialService.nextStep` (`tutorial/index.ts:106-126`) for a tutorial
with `steps` of length `k`.  The JavaScript comparison
`current_step >= content.steps.length - 1` is over signed numbers, hence the
cast to `Int`. -/
def nextStep (k : Nat) (s : LearnerSession) : LearnerSession :=
  if (s.current_step : Int) ≥ (k : Int) - 1 then completeSession s
  else { s with current_step := s.current_step + 1 }

/-- `TutorialService.previousStep` (`tutorial/index.ts:131-147`). -/
def previousStep (s : LearnerSession) : LearnerSession :=
  if s.current_step ≤ 0 then s
  else { s with current_step := s.current_step - 1 }

/- ──────────── AIService.generateTutorialContent (ai/service.ts) ──────────── -/

/-- `TutorialStep` from `src/ai/service.ts`. -/
structure AITutorialStep where
  title : List Char
  description : List Char
  instructions : List Char
  codeExample : Option (List Char)
  hints : List (List Char)
deriving DecidableEq, Repr

/-- The `{title, description, steps}` record produced by tutorial generation. -/
structure TutorialGenResult where
  title : List Char
  description : List Char
  steps : List AITutorialStep
deriving DecidableEq, Repr

/-- The fields `parseTutorialResponse` reads off the object produced by
`JSON.parse`; a `none` field was absent from (or non-stringly falsy in) the
parsed JSON. -/
structure ParsedTutorialJson where
  title : Option (List Char)
  description : Option (List Char)
  steps : Option (List AITutorialStep)
deriving DecidableEq, Repr

/-- JavaScript `x || d` for an optional string field (the empty string is
falsy). -/
def orDefault (o : Option (List Char)) (d : List Char) : List Char :=
  match o with
  | some s => if s = [] then d else s
  | none => d

/-- `response.match(/\x7b[\s\S]*\x7d/)`: the (leftmost-longest) stretch from
the first `'\x7b'` that is followed by some `'\x7d'`, up to the last `'\x7d'`. -/
def braceMatch (s : List Char) : Option (List Char) :=
  match splitFirst '{' s with
  | none => none
  | some (_, post) =>
    match splitLast '}' post with
    | none => none
    | some (mid, _) => some ('{' :: mid ++ ['}'])

/-- The commit argument of the AI fallback (only `message` is read). -/
structure AICommit where
  message : List Char
deriving DecidableEq, Repr

/-- `AIService.generateFallbackTutorial` (`ai/service.ts:642-671`): the
deterministic template used when the AI call or its parsing fails. -/
def generateFallbackTutorial (commit : Option AICommit) (_files : List GitHubFile) :
    TutorialGenResult :=
  { title :=
      match commit with
      | some c => chars "Learn: " ++ firstLine c.message
      | none => chars "Learn from this commit"
    description := chars "Step-by-step implementation guide based on the commit changes."
    steps :=
      [⟨chars "Understand the Changes", chars "Review what was modified",
        chars "Study the commit message and file changes to understand the goal.",
        none,
        [chars "Look at the commit message for context", chars "Check which files were modified"]⟩,
       ⟨chars "Plan Your Implementation", chars "Break down the approach",
        chars "Think about the implementation strategy and required changes.",
        none,
        [chars "Start with the main functionality", chars "Consider edge cases"]⟩,
       ⟨chars "Implement the Changes", chars "Write the code",
        chars "Implement the feature following the same patterns as the original commit.",
        none,
        [chars "Follow existing code patterns", chars "Add proper error handling"]⟩] }

/-- `AIService.parseTutorialResponse` (`ai/service.ts:588-610`).  The external
`JSON.parse` (composed with reading the three fields) is passed in as `jp`;
`jp sub = none` models a `JSON.parse` throw on the brace-matched substring. -/
def parseTutorialResponse (jp : List Char → Option ParsedTutorialJson)
    (response : List Char) : TutorialGenResult :=
  match braceMatch response with
  | some sub =>
    match jp sub with
    | some parsed =>
      { title := orDefault parsed.title (chars "Learn from this commit")
        description := orDefault parsed.description (chars "Step-by-step implementation guide")
        steps := parsed.steps.getD [] }
    | none => generateFallbackTutorial none []
  | none => generateFallbackTutorial none []

/-- `AIService.generateTutorialContent` (`ai/service.ts:143-176`).  `outcome`
is the result of the `env.AI.run` call: `.error` models a throw (caught, and
answered with the commit-specific fallback), `.ok r` a response whose
`response` field is `r` (`response.response || ''` makes a missing field the
empty string). -/
def generateTutorialContent (jp : List Char → Option ParsedTutorialJson)
    (commit : AICommit) (files : List GitHubFile)
    (outcome : Except (List Char) (Option (List Char))) : TutorialGenResult :=
  match outcome with
  | .error _ => generateFallbackTutorial (some commit) files
  | .ok r => parseTutorialResponse jp (r.getD [])

/- ───────────────────────── Spec-side definitions ───────────────────────── -/

/-- Modelled from the spec, for comparison with `parseRepositoryUrl`: the URL
shapes the spec requires `parse` to accept — `https://host/owner/name[.git]`,
`host/owner/name[.git]`, SSH-style `git@host:owner/name[.git]` — read with
the host fixed to `github.com`, an owner being any non-empty slash-free
segment and a name any non-empty slash-free segment (the `[.git]` suffix
optional).  This is the claim's reading; the code is compared against it. -/
def specUrlShape (url owner name : List Char) : Prop :=
  owner ≠ [] ∧ '/' ∉ owner ∧ name ≠ [] ∧ '/' ∉ name ∧
  ∃ g ∈ [([] : List Char), dotGit],
    url = httpsHead ++ owner ++ '/' :: (name ++ g) ∨
    url = httpHead ++ owner ++ '/' :: (name ++ g) ∨
    url = sshHead ++ owner ++ '/' :: (name ++ g) ∨
    url = bareHead ++ owner ++ '/' :: (name ++ g)

instance (url owner name : List Char) : Decidable (specUrlShape url owner name) := by
  unfold specUrlShape; infer_instance

/-- The shapes `parseRepositoryUrl` actually accepts: `specUrlShape`
restricted to names that contain no `'.'` (besides the optional `.git`
suffix). -/
def codeUrlShape (url owner name : List Char) : Prop :=
  owner ≠ [] ∧ '/' ∉ owner ∧ name ≠ [] ∧ noDotSlash name = true ∧
  ∃ g ∈ [([] : List Char), dotGit],
    url = httpsHead ++ owner ++ '/' :: (name ++ g) ∨
    url = httpHead ++ owner ++ '/' :: (name ++ g) ∨
    url = sshHead ++ owner ++ '/' :: (name ++ g) ∨
    url = bareHead ++ owner ++ '/' :: (name ++ g)

instance (url owner name : List Char) : Decidable (codeUrlShape url owner name) := by
  unfold codeUrlShape; infer_instance

/-- Modelled from the spec, for comparison with `categorizeCommit`: the
decision table of §4.3 step 3, read with ">70% of files" as the exact
rational comparison. -/
def specCategory (message : List Char) (files : List GitHubFile) : Category :=
  if hasSub (chars "add") message ∨ hasSub (chars "feat") message ∨
     hasSub (chars "implement") message then .feature
  else if hasSub (chars "fix") message ∨ hasSub (chars "bug") message ∨
     hasSub (chars "resolve") message then .fix
  else if hasSub (chars "refactor") message ∨ hasSub (chars "improve") message ∨
     hasSub (chars "clean") message then .refactor
  else if hasSub (chars "test") message ∨ hasMainlyTestFiles files then .test
  else if hasSub (chars "doc") message ∨ hasSub (chars "readme") message ∨
     hasMainlyDocFiles files then .docs
  else .other

/-- Concrete commit from the spec's test table: message "Add dark mode
toggle", 3 files, 40 lines changed. -/
def cDark : GitHubCommit :=
  ⟨chars "d1", chars "Add dark mode toggle", chars "ann", chars "2024-01-02",
   some [⟨chars "src/a.ts", 20, 0, chars "modified", none⟩,
         ⟨chars "src/b.ts", 10, 5, chars "modified", none⟩,
         ⟨chars "src/c.css", 5, 0, chars "modified", none⟩]⟩

/-- The empty store. -/
def stEmpty : Store := ⟨[], [], [], []⟩

/-- A store already holding the repository row for `https://github.com/a/b`. -/
def stWithAB : Store :=
  ⟨[⟨chars "a/b", chars "https://github.com/a/b", chars "a/b"⟩], [], [], []⟩

/-- An environment in which every external call succeeds and the fetched
batch is `[gcA, gcB]`. -/
def gcA : GitHubCommit := ⟨chars "aaa111", chars "Add x", chars "an", chars "d1", none⟩

def gcB : GitHubCommit := ⟨chars "bbb222", chars "Add y", chars "an", chars "d2", none⟩

/-- Environment whose only failure is `createCommit` throwing on the first
commit of the batch. -/
def envOneFail : IngestEnv :=
  ⟨.ok (chars "a/b"), none, .ok [gcA, gcB],
   fun i => if i = 0 then some (chars "storage down") else none,
   fun _ => none⟩

/-- Environment in which every external call succeeds (empty batch). -/
def envAllOk : IngestEnv :=
  ⟨.ok (chars "a/b"), none, .ok [], fun _ => none, fun _ => none⟩

/-- Environment in which fetching the commit list throws. -/
def envListFails : IngestEnv :=
  ⟨.ok (chars "a/b"), none, .error (chars "GitHub API error (500): boom"),
   fun _ => none, fun _ => none⟩

/- ═══════════════════════════════ Theorems ═══════════════════════════════ -/

lemma lookupStatus_upsert_self (l : List (List Char × AnalysisStatus))
    (rid : List Char) (s : AnalysisStatus) :
    lookupStatus (upsertStatus l rid s) rid = some s := by
  induction l with
  | nil => simp [upsertStatus, lookupStatus]
  | cons kv rest ih =>
    obtain ⟨k, v⟩ := kv
    simp only [upsertStatus]
    split_ifs with h
    · simp [lookupStatus]
    · simp [lookupStatus, h, ih]

lemma getStatus_setStatus_self (st : Store) (rid : List Char) (s : AnalysisStatus) :
    getStatus (setStatus st rid s) rid = some s :=
  lookupStatus_upsert_self st.statuses rid s

/-- The per-commit loop never touches the status store. -/
lemma ingestLoop_statuses (env : IngestEnv) (repoId : List Char) :
    ∀ (gcs : List GitHubCommit) (i : Nat) (st : Store),
      (ingestLoop env repoId i gcs st).1.statuses = st.statuses := by
  intro gcs
  induction gcs with
  | nil => intro i st; rfl
  | cons g rest ih =>
    intro i st
    simp only [ingestLoop]
    cases env.createCommitErr i with
    | some m => exact ih (i + 1) st
    | none =>
      split_ifs with h
      · cases env.storeDiffErr i with
        | some m => exact ih (i + 1) _
        | none => exact ih (i + 1) _
      · exact ih (i + 1) _

/-- The per-commit loop never touches the repository rows. -/
lemma ingestLoop_repos (env : IngestEnv) (repoId : List Char) :
    ∀ (gcs : List GitHubCommit) (i : Nat) (st : Store),
      (ingestLoop env repoId i gcs st).1.repos = st.repos := by
  intro gcs
  induction gcs with
  | nil => intro i st; rfl
  | cons g rest ih =>
    intro i st
    simp only [ingestLoop]
    cases env.createCommitErr i with
    | some m => exact ih (i + 1) st
    | none =>
      split_ifs with h
      · cases env.storeDiffErr i with
        | some m => exact ih (i + 1) _
        | none => exact ih (i + 1) _
      · exact ih (i + 1) _

/-- When every per-commit call in the window succeeds, every commit row is
stored and no error is collected. -/
lemma ingestLoop_all_ok (env : IngestEnv) (repoId : List Char) :
    ∀ (gcs : List GitHubCommit) (i : Nat) (st : Store),
      (∀ k, k < gcs.length → env.createCommitErr (i + k) = none) →
      (∀ k, k < gcs.length → env.storeDiffErr (i + k) = none) →
      (ingestLoop env repoId i gcs st).2.1.length = gcs.length ∧
      (ingestLoop env repoId i gcs st).2.2.2 = [] := by
  intro gcs
  induction gcs with
  | nil => intro i st _ _; exact ⟨rfl, rfl⟩
  | cons g rest ih =>
    intro i st hc hd
    have hc0 : env.createCommitErr i = none := by simpa using hc 0 (by simp)
    have hcs : ∀ k, k < rest.length → env.createCommitErr (i + 1 + k) = none := by
      intro k hk
      have e : i + 1 + k = i + (k + 1) := by omega
      rw [e]; exact hc (k + 1) (by simpa using Nat.succ_lt_succ hk)
    have hds : ∀ k, k < rest.length → env.storeDiffErr (i + 1 + k) = none := by
      intro k hk
      have e : i + 1 + k = i + (k + 1) := by omega
      rw [e]; exact hd (k + 1) (by simpa using Nat.succ_lt_succ hk)
    simp only [ingestLoop, hc0]
    split_ifs with h
    · have hd0 : env.storeDiffErr i = none := by simpa using hd 0 (by simp)
      rw [hd0]
      obtain ⟨ih1, ih2⟩ := ih (i + 1) _ hcs hds
      exact ⟨by simp [ih1], ih2⟩
    · obtain ⟨ih1, ih2⟩ := ih (i + 1) _ hcs hds
      exact ⟨by simp [ih1], ih2⟩

/-- When exactly one `createCommit` call in the window fails (and no diff
write fails), exactly one commit row is missing and exactly one error is
collected. -/
lemma ingestLoop_one_fail (env : IngestEnv) (repoId : List Char) :
    ∀ (gcs : List GitHubCommit) (i j : Nat) (st : Store) (m : List Char),
      j < gcs.length →
      env.createCommitErr (i + j) = some m →
      (∀ k, k < gcs.length → k ≠ j → env.createCommitErr (i + k) = none) →
      (∀ k, k < gcs.length → env.storeDiffErr (i + k) = none) →
      (ingestLoop env repoId i gcs st).2.1.length = gcs.length - 1 ∧
      (ingestLoop env repoId i gcs st).2.2.2.length = 1 := by
  intro gcs
  induction gcs with
  | nil => intro i j st m hj; simp at hj
  | cons g rest ih =>
    intro i j st m hj hfail hok hdiff
    have hds : ∀ k, k < rest.length → env.storeDiffErr (i + 1 + k) = none := by
      intro k hk
      have e : i + 1 + k = i + (k + 1) := by omega
      rw [e]; exact hdiff (k + 1) (by simpa using Nat.succ_lt_succ hk)
    rcases j with _ | j'
    · have hf0 : env.createCommitErr i = some m := by simpa using hfail
      have hcs : ∀ k, k < rest.length → env.createCommitErr (i + 1 + k) = none := by
        intro k hk
        have e : i + 1 + k = i + (k + 1) := by omega
        rw [e]
        exact hok (k + 1) (by simpa using Nat.succ_lt_succ hk) (by omega)
      simp only [ingestLoop, hf0]
      obtain ⟨h1, h2⟩ := ingestLoop_all_ok env repoId rest (i + 1) st hcs hds
      exact ⟨by simp [h1], by simp [h2]⟩
    · have hc0 : env.createCommitErr i = none := by
        simpa using hok 0 (by simp) (by omega)
      have hfs : env.createCommitErr (i + 1 + j') = some m := by
        have e : i + 1 + j' = i + (j' + 1) := by omega
        rw [e]; exact hfail
      have hos : ∀ k, k < rest.length → k ≠ j' → env.createCommitErr (i + 1 + k) = none := by
        intro k hk hne
        have e : i + 1 + k = i + (k + 1) := by omega
        rw [e]
        exact hok (k + 1) (by simpa using Nat.succ_lt_succ hk) (by omega)
      have hj' : j' < rest.length := by simpa using hj
      simp only [ingestLoop, hc0]
      split_ifs with h
      · have hd0 : env.storeDiffErr i = none := by simpa using hdiff 0 (by simp)
        rw [hd0]
        obtain ⟨ih1, ih2⟩ := ih (i + 1) j'
          ⟨st.repos, st.commits ++ [convertToDbCommit g repoId],
           st.diffs ++ [(repoId, g.sha)], st.statuses⟩ m hj' hfs hos hds
        exact ⟨by simp [ih1]; omega, by simpa using ih2⟩
      · obtain ⟨ih1, ih2⟩ := ih (i + 1) j'
          ⟨st.repos, st.commits ++ [convertToDbCommit g repoId], st.diffs, st.statuses⟩
          m hj' hfs hos hds
        exact ⟨by simp [ih1]; omega, by simpa using ih2⟩

/-- The code's keyword table equals the spec's decision table (§4.3 step 3),
read with ">70%" as the exact rational comparison. -/
lemma categorizeCommit_eq_spec (m : List Char) (fs : List GitHubFile) :
    categorizeCommit m fs = specCategory m fs := by
  simp only [categorizeCommit, specCategory, Bool.or_eq_true, or_assoc]

/- ── URL-parser lemmas (C9) ── -/

lemma peelLit_sound (p : List Char) :
    ∀ s r, peelLit p s = some r → s = p ++ r := by
  induction p with
  | nil => intro s r h; simpa [peelLit] using h
  | cons a ps ih =>
    intro s r h
    cases s with
    | nil => simp [peelLit] at h
    | cons c cs =>
      rw [peelLit] at h
      split_ifs at h with he
      · subst he
        simpa using ih cs r h

lemma peelLit_complete (p r : List Char) : peelLit p (p ++ r) = some r := by
  induction p with
  | nil => rfl
  | cons a ps ih => simpa [peelLit] using ih

lemma splitFirst_sound (c : Char) :
    ∀ s pre post, splitFirst c s = some (pre, post) →
      s = pre ++ c :: post ∧ c ∉ pre := by
  intro s
  induction s with
  | nil => intro pre post h; simp [splitFirst] at h
  | cons a rest ih =>
    intro pre post h
    by_cases he : a = c
    · subst he
      rw [splitFirst, if_pos rfl] at h
      simp only [Option.some.injEq, Prod.mk.injEq] at h
      obtain ⟨h1, h2⟩ := h
      subst h1; subst h2
      simp
    · rw [splitFirst, if_neg he] at h
      cases hsf : splitFirst c rest with
      | none => rw [hsf] at h; simp at h
      | some pq =>
        obtain ⟨p2, q2⟩ := pq
        rw [hsf] at h
        simp only [Option.some.injEq, Prod.mk.injEq] at h
        obtain ⟨h1, h2⟩ := h
        subst h1; subst h2
        obtain ⟨hr, hnotin⟩ := ih p2 q2 hsf
        refine ⟨by simp [hr], ?_⟩
        simp only [List.mem_cons, not_or]
        exact ⟨fun hca => he hca.symm, hnotin⟩

lemma splitFirst_complete (c : Char) (pre post : List Char) (hc : c ∉ pre) :
    splitFirst c (pre ++ c :: post) = some (pre, post) := by
  induction pre with
  | nil => simp [splitFirst]
  | cons a ps ih =>
    have ha : ¬(a = c) := fun h => hc (by simp [h])
    have hc' : c ∉ ps := fun h => hc (List.mem_cons_of_mem a h)
    rw [List.cons_append, splitFirst, if_neg ha, ih hc']

lemma matchRepoName_sound (tail n : List Char) (h : matchRepoName tail = some n) :
    n ≠ [] ∧ noDotSlash n = true ∧ (tail = n ∨ tail = n ++ dotGit) := by
  unfold matchRepoName at h
  split_ifs at h with h1 h2 h3
  · obtain ⟨h2a, h2b⟩ := h2
    injection h with h'
    subst h'
    refine ⟨h2a, h2b, Or.inr ?_⟩
    conv_lhs => rw [← List.take_append_drop (tail.length - 4) tail]
    rw [h1.2]
  · obtain ⟨h3a, h3b⟩ := h3
    injection h with h'
    subst h'
    exact ⟨h3a, h3b, Or.inl rfl⟩

lemma matchRepoName_plain (n : List Char) (h1 : n ≠ []) (h2 : noDotSlash n = true) :
    matchRepoName n = some n := by
  have hnot : ¬(4 ≤ n.length ∧ n.drop (n.length - 4) = dotGit) := by
    rintro ⟨hlen, hdrop⟩
    have hdot : '.' ∈ n := by
      have h' : '.' ∈ n.drop (n.length - 4) := by rw [hdrop]; decide
      exact List.mem_of_mem_drop h'
    have hall := (List.all_eq_true.mp h2) '.' hdot
    simp at hall
  rw [matchRepoName, if_neg hnot, if_pos ⟨h1, h2⟩]

lemma matchRepoName_git (n : List Char) (h1 : n ≠ []) (h2 : noDotSlash n = true) :
    matchRepoName (n ++ dotGit) = some n := by
  have hdg : dotGit.length = 4 := by decide
  have hlen : (n ++ dotGit).length - 4 = n.length := by
    simp [List.length_append, hdg]
  rw [matchRepoName, if_pos, hlen, List.take_left, if_pos ⟨h1, h2⟩]
  refine ⟨?_, ?_⟩
  · simp [List.length_append, hdg]
  · rw [hlen, List.drop_left]

lemma matchOwnerRepo_sound (rest o n : List Char)
    (h : matchOwnerRepo rest = some (o, n)) :
    o ≠ [] ∧ '/' ∉ o ∧ n ≠ [] ∧ noDotSlash n = true ∧
      (rest = o ++ '/' :: n ∨ rest = o ++ '/' :: (n ++ dotGit)) := by
  unfold matchOwnerRepo at h
  cases hsp : splitFirst '/' rest with
  | none => rw [hsp] at h; simp at h
  | some p =>
    obtain ⟨owner, tail⟩ := p
    rw [hsp] at h
    simp only at h
    split_ifs at h with ho
    · cases hmr : matchRepoName tail with
      | none => rw [hmr] at h; simp at h
      | some name =>
        rw [hmr] at h
        simp only [Option.some.injEq, Prod.mk.injEq] at h
        obtain ⟨h1, h2⟩ := h
        subst h1; subst h2
        obtain ⟨hr, hnotin⟩ := splitFirst_sound '/' rest owner tail hsp
        obtain ⟨hn1, hn2, htail⟩ := matchRepoName_sound tail name hmr
        refine ⟨ho, hnotin, hn1, hn2, ?_⟩
        rcases htail with rfl | rfl
        · exact Or.inl hr
        · exact Or.inr hr

lemma matchOwnerRepo_complete (o n g : List Char) (ho1 : o ≠ []) (ho2 : '/' ∉ o)
    (hn1 : n ≠ []) (hn2 : noDotSlash n = true) (hg : g = [] ∨ g = dotGit) :
    matchOwnerRepo (o ++ '/' :: (n ++ g)) = some (o, n) := by
  unfold matchOwnerRepo
  rw [splitFirst_complete '/' o (n ++ g) ho2]
  show (if o = [] then none
    else match matchRepoName (n ++ g) with
      | none => none
      | some name => some (o, name)) = some (o, n)
  rw [if_neg ho1]
  rcases hg with rfl | rfl
  · rw [List.append_nil, matchRepoName_plain n hn1 hn2]
  · rw [matchRepoName_git n hn1 hn2]

lemma tryPattern_sound (head url o n : List Char)
    (h : tryPattern head url = some (o, n)) :
    o ≠ [] ∧ '/' ∉ o ∧ n ≠ [] ∧ noDotSlash n = true ∧
      (url = head ++ (o ++ '/' :: n) ∨ url = head ++ (o ++ '/' :: (n ++ dotGit))) := by
  unfold tryPattern at h
  cases hp : peelLit head url with
  | none => rw [hp] at h; simp at h
  | some rest =>
    rw [hp] at h
    obtain ⟨ho1, ho2, hn1, hn2, hrest⟩ := matchOwnerRepo_sound rest o n h
    have hurl := peelLit_sound head url rest hp
    refine ⟨ho1, ho2, hn1, hn2, ?_⟩
    rcases hrest with rfl | rfl
    · exact Or.inl hurl
    · exact Or.inr hurl

lemma tryPattern_hit (head o n g : List Char) (ho1 : o ≠ []) (ho2 : '/' ∉ o)
    (hn1 : n ≠ []) (hn2 : noDotSlash n = true) (hg : g = [] ∨ g = dotGit) :
    tryPattern head (head ++ (o ++ '/' :: (n ++ g))) = some (o, n) := by
  unfold tryPattern
  rw [peelLit_complete]
  exact matchOwnerRepo_complete o n g ho1 ho2 hn1 hn2 hg

lemma append_ne (p q r s : List Char) (k : Nat) (hk1 : k < p.length)
    (hk2 : k < q.length) (hne : p[k]? ≠ q[k]?) : p ++ r ≠ q ++ s := by
  intro h
  apply hne
  rw [← List.getElem?_append_left hk1, ← List.getElem?_append_left hk2, h]

/-- A pattern whose literal head disagrees with the URL's actual head (at
index `k`) cannot match. -/
lemma tryPattern_miss (h1 h2 : List Char) (k : Nat) (hk1 : k < h1.length)
    (hk2 : k < h2.length) (hne : h1[k]? ≠ h2[k]?) (tail : List Char) :
    tryPattern h1 (h2 ++ tail) = none := by
  cases htp : tryPattern h1 (h2 ++ tail) with
  | none => rfl
  | some p =>
    obtain ⟨o, n⟩ := p
    obtain ⟨-, -, -, -, hurl⟩ := tryPattern_sound h1 (h2 ++ tail) o n htp
    rcases hurl with hurl | hurl <;>
      exact absurd hurl (append_ne h2 h1 tail _ k hk2 hk1 (fun he => hne he.symm))

lemma codeUrlShape_build (head o n : List Char)
    (hsel : head = httpsHead ∨ head = httpHead ∨ head = sshHead ∨ head = bareHead)
    (ho1 : o ≠ []) (ho2 : '/' ∉ o) (hn1 : n ≠ []) (hn2 : noDotSlash n = true)
    (url : List Char)
    (hurl : url = head ++ (o ++ '/' :: n) ∨ url = head ++ (o ++ '/' :: (n ++ dotGit))) :
    codeUrlShape url o n := by
  refine ⟨ho1, ho2, hn1, hn2, ?_⟩
  rcases hurl with rfl | rfl
  · refine ⟨[], by simp, ?_⟩
    rcases hsel with rfl | rfl | rfl | rfl
    · exact Or.inl (by simp [List.append_assoc])
    · exact Or.inr (Or.inl (by simp [List.append_assoc]))
    · exact Or.inr (Or.inr (Or.inl (by simp [List.append_assoc])))
    · exact Or.inr (Or.inr (Or.inr (by simp [List.append_assoc])))
  · refine ⟨dotGit, by simp, ?_⟩
    rcases hsel with rfl | rfl | rfl | rfl
    · exact Or.inl (by simp [List.append_assoc])
    · exact Or.inr (Or.inl (by simp [List.append_assoc]))
    · exact Or.inr (Or.inr (Or.inl (by simp [List.append_assoc])))
    · exact Or.inr (Or.inr (Or.inr (by simp [List.append_assoc])))

/-- Claim C9 (amended): `parseRepositoryUrl` accepts exactly the shapes
`https://github.com/owner/name[.git]`, `http://github.com/owner/name[.git]`,
`git@github.com:owner/name[.git]`, and `github.com/owner/name[.git]` where
the owner is a non-empty slash-free segment and the name is a non-empty
segment free of both `'/'` and `'.'`; on a match it returns the owner and the
name with the `.git` suffix stripped and `isValid = true`; every other input
— including names containing a dot, see the counterexample — yields the
invalid-format result, and the function is total (never throws).  -/
theorem c9_parse_url_amended (url : List Char) :
    (∀ o n, codeUrlShape url o n → parseRepositoryUrl url = ⟨o, n, true, none⟩) ∧
    ((∀ o n, ¬ codeUrlShape url o n) →
      parseRepositoryUrl url =
        ⟨[], [], false, some (chars "Invalid GitHub URL format")⟩) ∧
    ((parseRepositoryUrl url).isValid = true ↔ ∃ o n, codeUrlShape url o n) := by
  have part1 : ∀ o n, codeUrlShape url o n →
      parseRepositoryUrl url = ⟨o, n, true, none⟩ := by
    rintro o n ⟨ho1, ho2, hn1, hn2, g, hg, hurl⟩
    have hg' : g = [] ∨ g = dotGit := by simpa using hg
    rcases hurl with h | h | h | h <;> subst h
    · rw [parseRepositoryUrl, List.append_assoc,
        tryPattern_hit httpsHead o n g ho1 ho2 hn1 hn2 hg']
    · rw [parseRepositoryUrl, List.append_assoc,
        tryPattern_miss httpsHead httpHead 4 (by decide) (by decide) (by decide) _,
        tryPattern_hit httpHead o n g ho1 ho2 hn1 hn2 hg']
    · rw [parseRepositoryUrl, List.append_assoc,
        tryPattern_miss httpsHead sshHead 0 (by decide) (by decide) (by decide) _,
        tryPattern_miss httpHead sshHead 0 (by decide) (by decide) (by decide) _,
        tryPattern_hit sshHead o n g ho1 ho2 hn1 hn2 hg']
    · rw [parseRepositoryUrl, List.append_assoc,
        tryPattern_miss httpsHead bareHead 0 (by decide) (by decide) (by decide) _,
        tryPattern_miss httpHead bareHead 0 (by decide) (by decide) (by decide) _,
        tryPattern_miss sshHead bareHead 3 (by decide) (by decide) (by decide) _,
        tryPattern_hit bareHead o n g ho1 ho2 hn1 hn2 hg']
  have part2 : (∀ o n, ¬ codeUrlShape url o n) →
      parseRepositoryUrl url =
        ⟨[], [], false, some (chars "Invalid GitHub URL format")⟩ := by
    intro hno
    have hs : tryPattern httpsHead url = none := by
      cases htp : tryPattern httpsHead url with
      | none => rfl
      | some p =>
        obtain ⟨o, n⟩ := p
        obtain ⟨ho1, ho2, hn1, hn2, hurl⟩ := tryPattern_sound _ _ _ _ htp
        exact absurd (codeUrlShape_build httpsHead o n (Or.inl rfl)
          ho1 ho2 hn1 hn2 url hurl) (hno o n)
    have hh : tryPattern httpHead url = none := by
      cases htp : tryPattern httpHead url with
      | none => rfl
      | some p =>
        obtain ⟨o, n⟩ := p
        obtain ⟨ho1, ho2, hn1, hn2, hurl⟩ := tryPattern_sound _ _ _ _ htp
        exact absurd (codeUrlShape_build httpHead o n (Or.inr (Or.inl rfl))
          ho1 ho2 hn1 hn2 url hurl) (hno o n)
    have hg : tryPattern sshHead url = none := by
      cases htp : tryPattern sshHead url with
      | none => rfl
      | some p =>
        obtain ⟨o, n⟩ := p
        obtain ⟨ho1, ho2, hn1, hn2, hurl⟩ := tryPattern_sound _ _ _ _ htp
        exact absurd (codeUrlShape_build sshHead o n (Or.inr (Or.inr (Or.inl rfl)))
          ho1 ho2 hn1 hn2 url hurl) (hno o n)
    have hb : tryPattern bareHead url = none := by
      cases htp : tryPattern bareHead url with
      | none => rfl
      | some p =>
        obtain ⟨o, n⟩ := p
        obtain ⟨ho1, ho2, hn1, hn2, hurl⟩ := tryPattern_sound _ _ _ _ htp
        exact absurd (codeUrlShape_build bareHead o n (Or.inr (Or.inr (Or.inr rfl)))
          ho1 ho2 hn1 hn2 url hurl) (hno o n)
    rw [parseRepositoryUrl, hs, hh, hg, hb]
  refine ⟨part1, part2, ?_, ?_⟩
  · intro hval
    by_contra hnex
    push_neg at hnex
    rw [part2 hnex] at hval
    simp at hval
  · rintro ⟨o, n, h⟩
    rw [part1 o n h]

/-- Claim C9 witness: `https://github.com/a/b.git` parses to owner `a`, name
`b` (the `.git` suffix stripped), and a bare invalid string is rejected with
the fixed error message. -/
theorem c9_witness :
    parseRepositoryUrl (chars "https://github.com/a/b.git") =
      ⟨chars "a", chars "b", true, none⟩ ∧
    parseRepositoryUrl (chars "not a repository url") =
      ⟨[], [], false, some (chars "Invalid GitHub URL format")⟩ :=
  ⟨(c9_parse_url_amended (chars "https://github.com/a/b.git")).1
      (chars "a") (chars "b") (by decide),
   (c9_parse_url_amended (chars "not a repository url")).2.1
     (fun o n h =>
       absurd ((c9_parse_url_amended (chars "not a repository url")).2.2.mpr
         ⟨o, n, h⟩) (by decide))⟩

/-- Claim C9 counterexample: `https://github.com/vercel/next.js` *is* of the
shape `https://host/owner/name` (owner `vercel`, name `next.js`), yet the
parser rejects it — the repo-name capture group `[^\/\.]+` refuses any dot in
the name, so the claim's "accepts at least `https://host/owner/name`" fails. -/
theorem c9_counterexample :
    specUrlShape (chars "https://github.com/vercel/next.js")
      (chars "vercel") (chars "next.js") ∧
    parseRepositoryUrl (chars "https://github.com/vercel/next.js") =
      ⟨[], [], false, some (chars "Invalid GitHub URL format")⟩ := by
  constructor
  · decide
  · rfl

/-- Claim C2: when the URL (well-formed) is already present in the relational
store, `ingestRepository` fails with the already-exists error and the store is
returned unchanged — no second repository row, and no write of any kind
before the existing-by-URL check fails. -/
theorem c2_ingest_dedup (env : IngestEnv) (url : List Char) (st : Store)
    (hv : (parseRepositoryUrl url).isValid = true)
    (hex : st.repos.any (fun r => r.github_url = url) = true) :
    ingestRepository env url st =
      (.error (chars "Repository already exists in database"), st) := by
  simp only [ingestRepository, hv, hex]
  rfl

/-- Claim C2 witness: re-ingesting `https://github.com/a/b` into a store that
already holds that repository row fails with the already-exists error and
leaves the store exactly as it was. -/
theorem c2_witness :
    ingestRepository envAllOk (chars "https://github.com/a/b") stWithAB =
      (.error (chars "Repository already exists in database"), stWithAB) :=
  c2_ingest_dedup envAllOk (chars "https://github.com/a/b") stWithAB
    (by decide) (by decide)

/-- Claim C1: over a batch of `N` fetched commits in which the storage write
for exactly one commit (the `createCommit` at index `j`) fails and everything
else succeeds, ingestion still returns successfully, with `N − 1` stored
commit rows, exactly one collected error, and `totalCommits = N`. -/
theorem c1_partial_failure_isolation (env : IngestEnv) (url : List Char)
    (st : Store) (gcs : List GitHubCommit) (j : Nat) (m fn : List Char)
    (hv : (parseRepositoryUrl url).isValid = true)
    (hex : st.repos.any (fun r => r.github_url = url) = false)
    (hinfo : env.repoInfoFullName = .ok fn)
    (hcr : env.createRepoErr = none)
    (hlc : env.learningCommits = .ok gcs)
    (hj : j < gcs.length)
    (hfail : env.createCommitErr j = some m)
    (hok : ∀ k, k < gcs.length → k ≠ j → env.createCommitErr k = none)
    (hdiff : ∀ k, k < gcs.length → env.storeDiffErr k = none) :
    ∃ res, (ingestRepository env url st).1 = .ok res ∧
      res.commits.length = gcs.length - 1 ∧
      res.errors.length = 1 ∧
      res.totalCommits = gcs.length := by
  simp only [ingestRepository, hv, hex, hinfo, hcr, hlc]
  refine ⟨_, rfl, ?_, ?_, rfl⟩
  · exact (ingestLoop_one_fail env _ gcs 0 j _ m hj (by simpa using hfail)
      (fun k hk hne => by simpa using hok k hk hne)
      (fun k hk => by simpa using hdiff k hk)).1
  · exact (ingestLoop_one_fail env _ gcs 0 j _ m hj (by simpa using hfail)
      (fun k hk hne => by simpa using hok k hk hne)
      (fun k hk => by simpa using hdiff k hk)).2

/-- Claim C1 witness: a 2-commit batch whose first `createCommit` throws
yields a successful result with 1 stored commit, 1 error, `totalCommits = 2`. -/
theorem c1_witness :
    ∃ res, (ingestRepository envOneFail (chars "https://github.com/a/b") stEmpty).1
        = .ok res ∧
      res.commits.length = 1 ∧ res.errors.length = 1 ∧ res.totalCommits = 2 :=
  c1_partial_failure_isolation envOneFail (chars "https://github.com/a/b") stEmpty
    [gcA, gcB] 0 (chars "storage down") (chars "a/b")
    (by decide) (by decide) rfl rfl rfl (by decide) rfl
    (fun k _ hne => by simp [envOneFail, hne])
    (fun _ _ => rfl)

/-- Claim C7: the analysis status is never left stale at `analyzing`: whenever
`ingestRepository` returns successfully the status of the ingested repository
is `completed` (no matter how many per-commit failures occurred), and whenever
it rethrows after having written the repository row (the run's only new row),
the status of that row has first been set to `error` carrying the error's
message. -/
theorem c7_status_not_stale (env : IngestEnv) (url : List Char) (st : Store) :
    (∀ res, (ingestRepository env url st).1 = .ok res →
      ∃ rep, res.repository = some rep ∧
        getStatus (ingestRepository env url st).2 rep.id =
          some ⟨rep.id, .completed, none⟩) ∧
    (∀ e, (ingestRepository env url st).1 = .error e →
      ∀ rep, rep ∈ (ingestRepository env url st).2.repos → rep ∉ st.repos →
        getStatus (ingestRepository env url st).2 rep.id =
          some ⟨rep.id, .error, some e⟩) := by
  rcases hv : (parseRepositoryUrl url).isValid with _ | _
  · constructor
    · intro res hres
      simp [ingestRepository, hv] at hres
    · intro e he rep hmem hnmem
      simp only [ingestRepository, hv, Bool.not_false, if_pos] at hmem
      exact absurd hmem hnmem
  · rcases hex : st.repos.any (fun r => r.github_url = url) with _ | _
    · rcases hinfo : env.repoInfoFullName with e0 | fn
      · constructor
        · intro res hres
          simp [ingestRepository, hv, hex, hinfo] at hres
        · intro e he rep hmem hnmem
          simp only [ingestRepository, hv, hex, hinfo, Bool.not_true,
            Bool.false_eq_true, if_false] at hmem
          exact absurd hmem hnmem
      · rcases hcr : env.createRepoErr with _ | m0
        · rcases hlcs : env.learningCommits with e0 | gcs
          · constructor
            · intro res hres
              simp [ingestRepository, hv, hex, hinfo, hcr, hlcs] at hres
            · intro e he rep hmem hnmem
              simp only [ingestRepository, hv, hex, hinfo, hcr, hlcs,
                Bool.not_true, Bool.false_eq_true, if_false] at hmem he ⊢
              have herep : rep =
                  ⟨(parseRepositoryUrl url).owner ++ '/' :: (parseRepositoryUrl url).repo,
                   url, fn⟩ := by
                rcases (List.mem_append.mp hmem) with h' | h'
                · exact absurd h' hnmem
                · simpa using h'
              subst herep
              injection he with he'
              subst he'
              exact getStatus_setStatus_self _ _ _
          · constructor
            · intro res hres
              simp only [ingestRepository, hv, hex, hinfo, hcr, hlcs,
                Bool.not_true, Bool.false_eq_true, if_false, Except.ok.injEq] at hres
              subst hres
              refine ⟨_, rfl, ?_⟩
              simp only [ingestRepository, hv, hex, hinfo, hcr, hlcs,
                Bool.not_true, Bool.false_eq_true, if_false]
              exact getStatus_setStatus_self _ _ _
            · intro e he
              simp [ingestRepository, hv, hex, hinfo, hcr, hlcs] at he
        · constructor
          · intro res hres
            simp [ingestRepository, hv, hex, hinfo, hcr] at hres
          · intro e he rep hmem hnmem
            simp only [ingestRepository, hv, hex, hinfo, hcr, Bool.not_true,
              Bool.false_eq_true, if_false] at hmem
            exact absurd hmem hnmem
    · constructor
      · intro res hres
        simp [ingestRepository, hv, hex] at hres
      · intro e he rep hmem hnmem
        simp only [ingestRepository, hv, hex, Bool.not_true, Bool.false_eq_true,
          if_false] at hmem
        exact absurd hmem hnmem

/-- Claim C7 witness, success side: an all-success run over an empty batch
ends with status `completed` for the new row. -/
theorem c7_witness :
    ∃ rep,
      (RepoIngestionResult.mk (some ⟨chars "a/b", chars "https://github.com/a/b",
          chars "a/b"⟩) [] 0 0 []).repository = some rep ∧
      getStatus (ingestRepository envAllOk (chars "https://github.com/a/b") stEmpty).2
          rep.id = some ⟨rep.id, .completed, none⟩ :=
  (c7_status_not_stale envAllOk (chars "https://github.com/a/b") stEmpty).1
    (RepoIngestionResult.mk (some ⟨chars "a/b", chars "https://github.com/a/b",
      chars "a/b"⟩) [] 0 0 []) (by rfl)

/-- Claim C4: the classifier's size gates short-circuit in order — more than
15 files gives the bulk-operation rejection regardless of anything else; with
at most 15 files, fewer than 5 changed lines gives the too-small rejection;
with at most 15 files and 5–500 lines exceeded above, the likely-generated
rejection — and in each such case the commit is not learning-worthy and the
category is still the initial `other`, i.e. categorization never ran. -/
theorem c4_classifier_size_gates (c : GitHubCommit) :
    ((c.files.getD []).length > 15 →
      analyzeCommit c =
        { sha := c.sha, isLearningWorthy := false, category := .other,
          reason := chars "Too many files changed (bulk operation)",
          fileTypes := getFileTypes (c.files.getD []),
          linesChanged := getTotalLinesChanged (c.files.getD []) }) ∧
    ((c.files.getD []).length ≤ 15 → getTotalLinesChanged (c.files.getD []) < 5 →
      analyzeCommit c =
        { sha := c.sha, isLearningWorthy := false, category := .other,
          reason := chars "Very small change",
          fileTypes := getFileTypes (c.files.getD []),
          linesChanged := getTotalLinesChanged (c.files.getD []) }) ∧
    ((c.files.getD []).length ≤ 15 → 5 ≤ getTotalLinesChanged (c.files.getD []) →
      500 < getTotalLinesChanged (c.files.getD []) →
      analyzeCommit c =
        { sha := c.sha, isLearningWorthy := false, category := .other,
          reason := chars "Too many lines changed (likely auto-generated)",
          fileTypes := getFileTypes (c.files.getD []),
          linesChanged := getTotalLinesChanged (c.files.getD []) }) := by
  refine ⟨fun h1 => ?_, fun h1 h2 => ?_, fun h1 h2 h3 => ?_⟩ <;>
    simp only [analyzeCommit] <;> split_ifs <;> first | rfl | omega

/-- Claim C4 witness: the spec's concrete case — message "Fix typo", one file,
2 lines changed — is rejected as too small before categorization. -/
theorem c4_witness :
    analyzeCommit ⟨chars "sha3", chars "Fix typo", chars "ann", chars "d",
        some [⟨chars "x.ts", 1, 1, chars "modified", none⟩]⟩ =
      { sha := chars "sha3", isLearningWorthy := false, category := .other,
        reason := chars "Very small change", fileTypes := [chars "ts"],
        linesChanged := 2 } :=
  ((c4_classifier_size_gates _).2.1 (by decide) (by decide)).trans (by decide)

/-- Claim C6: whenever every file of the commit is a configuration file, the
classifier's config-only override forces `isLearningWorthy = false`, whatever
category the message produced. -/
theorem c6_config_only_override (c : GitHubCommit)
    (h : hasOnlyConfigFiles (c.files.getD []) = true) :
    (analyzeCommit c).isLearningWorthy = false := by
  simp only [analyzeCommit]
  split_ifs <;> rfl

/-- Claim C6 witness: a commit touching only `deploy.yml` and
`package-lock.json` is categorized `feature` from its "Add feature" message
yet is not learning-worthy. -/
theorem c6_witness :
    (analyzeCommit ⟨chars "sha5", chars "Add feature", chars "ann", chars "d",
        some [⟨chars "deploy.yml", 30, 0, chars "modified", none⟩,
              ⟨chars "package-lock.json", 30, 0, chars "modified", none⟩]⟩).isLearningWorthy
      = false ∧
    (analyzeCommit ⟨chars "sha5", chars "Add feature", chars "ann", chars "d",
        some [⟨chars "deploy.yml", 30, 0, chars "modified", none⟩,
              ⟨chars "package-lock.json", 30, 0, chars "modified", none⟩]⟩).category
      = Category.feature :=
  ⟨c6_config_only_override _ (by decide), by decide⟩

/-- Claim C10: a commit whose `files` field is absent or empty is analyzed
with `linesChanged = 0`, rejected by the too-small gate with reason
"Very small change", and is never learning-worthy, regardless of its
message; the config-only and version-bump overrides never run. -/
theorem c10_empty_files (c : GitHubCommit) (h : c.files = none ∨ c.files = some []) :
    analyzeCommit c =
      { sha := c.sha, isLearningWorthy := false, category := .other,
        reason := chars "Very small change", fileTypes := [], linesChanged := 0 } := by
  rcases h with h | h <;>
    simp [analyzeCommit, h, getTotalLinesChanged, getFileTypes]

/-- Claim C10 witness: a feature-worded commit fetched without file data is
still rejected as a very small change. -/
theorem c10_witness :
    analyzeCommit ⟨chars "sha6", chars "Implement big feature", chars "a", chars "d", none⟩ =
      { sha := chars "sha6", isLearningWorthy := false, category := .other,
        reason := chars "Very small change", fileTypes := [], linesChanged := 0 } :=
  c10_empty_files _ (Or.inl rfl)

/-- Claim C3 (amended): for a tutorial with `k` steps, a new session starts at
step 0 and not completed; `nextStep` below the final index advances by one
without completing; `nextStep` at (or beyond) the final index completes and
leaves the step unchanged; `previousStep` at step 0 is a no-op; and after
completion, `completeSession` — and `nextStep` provided the session sits at
the final index — are no-ops returning the state unchanged.  (As stated the
claim fails: `nextStep` never consults the completion flag, so on a session
completed early — before the final step — it advances the step; see the
counterexample.) -/
theorem c3_session_machine_amended (k : Nat) (s : LearnerSession) :
    (startSession.current_step = 0 ∧ startSession.completed = false) ∧
    (s.current_step + 1 < k →
      nextStep k s = { s with current_step := s.current_step + 1 }) ∧
    (s.current_step = k - 1 → nextStep k s = { s with completed := true }) ∧
    (s.current_step = 0 → previousStep s = s) ∧
    (s.completed = true → k - 1 ≤ s.current_step → nextStep k s = s) ∧
    (s.completed = true → completeSession s = s) := by
  refine ⟨⟨rfl, rfl⟩, fun h => ?_, fun h => ?_, fun h => ?_, fun h1 h2 => ?_, fun h1 => ?_⟩
  · rw [nextStep, if_neg (by omega : ¬((s.current_step : Int) ≥ (k : Int) - 1))]
  · rw [nextStep, if_pos (by omega : (s.current_step : Int) ≥ (k : Int) - 1)]; rfl
  · rw [previousStep, if_pos (by omega)]
  · rw [nextStep, if_pos (by omega : (s.current_step : Int) ≥ (k : Int) - 1)]
    cases s; simp_all [completeSession]
  · cases s; simp_all [completeSession]

/-- Claim C3 witness: with 3 steps — start at step 0; next advances 0→1 and
1→2 without completing; next at step 2 completes and stays at 2; previous at
0 is a no-op; next and complete on the session completed at the final step
change nothing. -/
theorem c3_witness :
    nextStep 3 ⟨0, false⟩ = ⟨1, false⟩ ∧ nextStep 3 ⟨1, false⟩ = ⟨2, false⟩ ∧
    nextStep 3 ⟨2, false⟩ = ⟨2, true⟩ ∧ previousStep ⟨0, false⟩ = ⟨0, false⟩ ∧
    nextStep 3 ⟨2, true⟩ = ⟨2, true⟩ ∧ completeSession ⟨2, true⟩ = ⟨2, true⟩ :=
  ⟨(c3_session_machine_amended 3 ⟨0, false⟩).2.1 (by decide),
   (c3_session_machine_amended 3 ⟨1, false⟩).2.1 (by decide),
   (c3_session_machine_amended 3 ⟨2, false⟩).2.2.1 (by decide),
   (c3_session_machine_amended 3 ⟨0, false⟩).2.2.2.1 (by decide),
   (c3_session_machine_amended 3 ⟨2, true⟩).2.2.2.2.1 (by decide) (by decide),
   (c3_session_machine_amended 3 ⟨2, true⟩).2.2.2.2.2 (by decide)⟩

/-- Claim C3 counterexample: a session explicitly completed at step 0 of a
3-step tutorial is *advanced* by `nextStep` — invoking `nextStep` after
completion is not, in general, a no-op returning the current state. -/
theorem c3_counterexample :
    (⟨0, true⟩ : LearnerSession).completed = true ∧
    nextStep 3 ⟨0, true⟩ = ⟨1, true⟩ ∧
    nextStep 3 ⟨0, true⟩ ≠ ⟨0, true⟩ := by decide

/-- `x || d` for an optional string is non-empty whenever the default is. -/
lemma orDefault_ne (o : Option (List Char)) (d : List Char) (hd : d ≠ []) :
    orDefault o d ≠ [] := by
  rcases o with _ | s
  · exact hd
  · simp only [orDefault]
    split_ifs with h
    · exact hd
    · exact h

lemma parseTutorialResponse_of_brace_none {jp : List Char → Option ParsedTutorialJson}
    {response : List Char} (hb : braceMatch response = none) :
    parseTutorialResponse jp response = generateFallbackTutorial none [] := by
  simp only [parseTutorialResponse, hb]

lemma parseTutorialResponse_of_jp_none {jp : List Char → Option ParsedTutorialJson}
    {response sub : List Char} (hb : braceMatch response = some sub)
    (hj : jp sub = none) :
    parseTutorialResponse jp response = generateFallbackTutorial none [] := by
  simp only [parseTutorialResponse, hb, hj]

lemma parseTutorialResponse_of_jp_some {jp : List Char → Option ParsedTutorialJson}
    {response sub : List Char} {p : ParsedTutorialJson}
    (hb : braceMatch response = some sub) (hj : jp sub = some p) :
    parseTutorialResponse jp response =
      { title := orDefault p.title (chars "Learn from this commit"),
        description := orDefault p.description (chars "Step-by-step implementation guide"),
        steps := p.steps.getD [] } := by
  simp only [parseTutorialResponse, hb, hj]

/-- Whatever the AI answered, the parsed tutorial has a non-empty title and a
non-empty description (absent or empty fields fall back to the defaults). -/
lemma parseTutorialResponse_fields_ne (jp : List Char → Option ParsedTutorialJson)
    (response : List Char) :
    (parseTutorialResponse jp response).title ≠ [] ∧
    (parseTutorialResponse jp response).description ≠ [] := by
  rcases hb : braceMatch response with _ | sub
  · rw [parseTutorialResponse_of_brace_none hb]
    exact ⟨by decide, by decide⟩
  · rcases hj : jp sub with _ | p
    · rw [parseTutorialResponse_of_jp_none hb hj]
      exact ⟨by decide, by decide⟩
    · rw [parseTutorialResponse_of_jp_some hb hj]
      exact ⟨orDefault_ne _ _ (by decide), orDefault_ne _ _ (by decide)⟩

/-- Claim C5: past the size gates, the assigned category is the keyword
decision table of the spec (feature > fix > refactor > test > docs > other,
with the two >70% file-ratio fallbacks), and — before the config-only and
version-bump overrides, i.e. when neither override condition holds — the
commit is learning-worthy exactly when the category is `feature` or `test`,
or `fix` with ≥10 lines and ≤5 files, or `refactor` with ≤8 files and ≤200
lines. -/
theorem c5_classifier_decision_table (c : GitHubCommit)
    (h1 : (c.files.getD []).length ≤ 15)
    (h2 : 5 ≤ getTotalLinesChanged (c.files.getD []))
    (h3 : getTotalLinesChanged (c.files.getD []) ≤ 500) :
    (analyzeCommit c).category =
      specCategory (lowerS c.message) (c.files.getD []) ∧
    (hasOnlyConfigFiles (c.files.getD []) = false →
      isVersionBump (lowerS c.message) = false →
      ((analyzeCommit c).isLearningWorthy = true ↔
        (categorizeCommit (lowerS c.message) (c.files.getD []) = .feature ∨
         categorizeCommit (lowerS c.message) (c.files.getD []) = .test ∨
         (categorizeCommit (lowerS c.message) (c.files.getD []) = .fix ∧
           10 ≤ getTotalLinesChanged (c.files.getD []) ∧ (c.files.getD []).length ≤ 5) ∨
         (categorizeCommit (lowerS c.message) (c.files.getD []) = .refactor ∧
           (c.files.getD []).length ≤ 8 ∧
           getTotalLinesChanged (c.files.getD []) ≤ 200)))) := by
  constructor
  · simp only [analyzeCommit]
    rw [if_neg (by omega), if_neg (by omega), if_neg (by omega),
      ← categorizeCommit_eq_spec]
    cases hcat : categorizeCommit (lowerS c.message) (c.files.getD []) <;>
      split_ifs <;> rfl
  · intro hconf hver
    simp only [analyzeCommit]
    rw [if_neg (by omega), if_neg (by omega), if_neg (by omega),
      if_neg (by simp [hver]), if_neg (by simp [hconf])]
    cases hcat : categorizeCommit (lowerS c.message) (c.files.getD []) <;>
      (split_ifs with hcond <;> simp_all)

/-- Claim C5 witness: the spec's concrete case "Add dark mode toggle" with
3 files and 40 changed lines is categorized `feature` and learning-worthy. -/
theorem c5_witness :
    (analyzeCommit cDark).isLearningWorthy = true ∧
    (analyzeCommit cDark).category = Category.feature :=
  ⟨((c5_classifier_decision_table cDark (by decide) (by decide) (by decide)).2
      (by decide) (by decide)).mpr (Or.inl (by decide)),
   by decide⟩

/-- Claim C8 (amended): tutorial-content generation never propagates a
failure — when the AI call throws it answers with the commit-specific
deterministic fallback; when the response contains no brace-delimited
stretch, or `JSON.parse` fails on it, it answers with the generic fallback;
both fallbacks carry exactly 3 steps; and in every case the returned title
and description are non-empty.  (As stated the claim fails: on a parseable
JSON response that lacks a `steps` array the success path returns an *empty*
step sequence — see the counterexample.) -/
theorem c8_ai_degrade_amended (jp : List Char → Option ParsedTutorialJson)
    (commit : AICommit) (files : List GitHubFile)
    (outcome : Except (List Char) (Option (List Char))) :
    (∀ e, outcome = .error e →
      generateTutorialContent jp commit files outcome =
        generateFallbackTutorial (some commit) files) ∧
    (∀ r, outcome = .ok r → braceMatch (r.getD []) = none →
      generateTutorialContent jp commit files outcome =
        generateFallbackTutorial none []) ∧
    (∀ r sub, outcome = .ok r → braceMatch (r.getD []) = some sub → jp sub = none →
      generateTutorialContent jp commit files outcome =
        generateFallbackTutorial none []) ∧
    ((generateFallbackTutorial (some commit) files).steps.length = 3 ∧
     (generateFallbackTutorial none []).steps.length = 3) ∧
    (generateTutorialContent jp commit files outcome).title ≠ [] ∧
    (generateTutorialContent jp commit files outcome).description ≠ [] := by
  refine ⟨fun e he => ?_, fun r hr hb => ?_, fun r sub hr hb hj => ?_, ⟨rfl, rfl⟩, ?_, ?_⟩
  · rw [he]; rfl
  · rw [hr]; simp only [generateTutorialContent, parseTutorialResponse, hb]
  · rw [hr]; simp only [generateTutorialContent, parseTutorialResponse, hb, hj]
  · rcases outcome with e | r
    · have h1 : (generateTutorialContent jp commit files (.error e)).title =
          chars "Learn: " ++ firstLine commit.message := rfl
      rw [h1]
      intro hc
      exact absurd (List.append_eq_nil.mp hc).1 (by decide)
    · exact (parseTutorialResponse_fields_ne jp (r.getD [])).1
  · rcases outcome with e | r
    · show chars "Step-by-step implementation guide based on the commit changes." ≠ []
      decide
    · exact (parseTutorialResponse_fields_ne jp (r.getD [])).2

/-- Claim C8 witness: with an AI call that throws, generation returns the
deterministic fallback tutorial built from the commit message, with its
3 template steps. -/
theorem c8_witness :
    generateTutorialContent (fun _ => none) ⟨chars "Add dark mode"⟩ []
        (.error (chars "AI outage")) =
      generateFallbackTutorial (some ⟨chars "Add dark mode"⟩) [] ∧
    (generateFallbackTutorial (some ⟨chars "Add dark mode"⟩) []).steps.length = 3 :=
  ⟨(c8_ai_degrade_amended (fun _ => none) ⟨chars "Add dark mode"⟩ []
      (.error (chars "AI outage"))).1 _ rfl,
   (c8_ai_degrade_amended (fun _ => none) ⟨chars "Add dark mode"⟩ []
      (.error (chars "AI outage"))).2.2.2.1.2⟩

/-- Claim C8 counterexample: when the AI call *succeeds* and returns the
parseable JSON text `"\x7b\x7d"` (an object with no fields — modelled by the
`JSON.parse` oracle below exactly as JavaScript parses it), the success path
returns `steps = []`: the returned value does not have a non-empty step
sequence in every case, and this empty-steps value is not the fallback. -/
theorem c8_counterexample :
    braceMatch (chars "{}") = some (chars "{}") ∧
    (generateTutorialContent
        (fun s => if s = chars "{}" then some ⟨none, none, none⟩ else none)
        ⟨chars "Add dark mode"⟩ [] (.ok (some (chars "{}")))).steps = [] := by
  constructor <;> rfl

end Onboarder
